import Mathlib

/-
Verification of the read-path decoding core of `simple-db`:
the record decoder (`src/record.rs`) and the schema catalog builder
(`src/sqlite_schema.rs`), shallowly embedded as executable Lean functions.

Bytes are modelled as `List Nat` (each element a `u8` value), machine
integers as `Nat`/`Int` with explicit `% 2 ^ w` where wrap-around matters.
Rust fallibility is modelled by the three-valued `Outcome` type below:
a `Result::Err` becomes `Outcome.err` and a process abort (a Rust
`unreachable!()`, `.expect(..)`, slice-index-out-of-bounds or
overflow-checked arithmetic failure) becomes `Outcome.panic`.
-/

namespace SimpleDb

/-- Raw bytes of a payload, of a text/blob view, or of a string. -/
abbrev Bytes := List Nat

/-- Result of running a piece of the Rust code: a normal value (`ok`),
a recoverable `Result::Err` (`err`), or a process abort (`panic`). -/
inductive Outcome (α : Type) where
  | ok (a : α)
  | err (msg : String)
  | panic (msg : String)
  deriving DecidableEq, Repr

/-- True exactly on the recoverable-error outcome. -/
def Outcome.isErr {α : Type} : Outcome α → Bool
  | .err _ => true
  | _ => false

/-- True exactly on the process-abort outcome. -/
def Outcome.isPanicky {α : Type} : Outcome α → Bool
  | .panic _ => true
  | _ => false

/-- Modelled from the spec: the varint codec lives in the `varient` module,
which is not under `src/`. Spec §4.1: for each of the first 8 bytes the low
7 bits are shifted into a `u64` accumulator; a clear high bit terminates;
if 8 continuation bytes were consumed, the 9th byte contributes all 8 of
its bits and terminates unconditionally. `acc` is the accumulator so far,
`count` the number of bytes already consumed; the result pairs the decoded
value with the total number of consumed bytes, and `none` models the
truncated-input failure. -/
def varintGo : Bytes → Nat → Nat → Option (Nat × Nat)
  | [], _, _ => none
  | b :: rest, acc, count =>
    if count = 8 then some ((acc * 256 + b) % Nat.pow 2 64, 9)
    else if b < 128 then some ((acc * 128 + b) % Nat.pow 2 64, count + 1)
    else varintGo rest ((acc * 128 + (b - 128)) % Nat.pow 2 64) (count + 1)

/-- Modelled from the spec: `varient::read(bytes) -> (u64, usize)`, see
`varintGo`. -/
def varintRead (bytes : Bytes) : Option (Nat × Nat) := varintGo bytes 0 0

/-- Serial-type storage classes, record.rs:3-17 (`enum ColumnType`). -/
inductive ColumnType where
  | Null
  | I8
  | I16
  | I24
  | I32
  | I48
  | I64
  | F64
  | Zero
  | One
  | Blob (size : Nat)
  | Text (size : Nat)
  deriving DecidableEq, Repr

/-- Embedding of `impl From<u64> for ColumnType` (record.rs:19-37), the
serial-type classifier. The guard chain mirrors the Rust `match` arms in
order; `panic` models the `unreachable!()` catch-all arm. Note the source
guards are `n > 12` and `n > 13`, so codes 10, 11, 12 and 13 all fall
through to `unreachable!()`. -/
def ColumnType.fromCode (value : Nat) : Outcome ColumnType :=
  if value = 0 then .ok .Null
  else if value = 1 then .ok .I8
  else if value = 2 then .ok .I16
  else if value = 3 then .ok .I24
  else if value = 4 then .ok .I32
  else if value = 5 then .ok .I48
  else if value = 6 then .ok .I64
  else if value = 7 then .ok .F64
  else if value = 8 then .ok .Zero
  else if value = 9 then .ok .One
  else if value > 12 ∧ value % 2 = 0 then .ok (.Blob ((value - 12) / 2))
  else if value > 13 ∧ value % 2 = 1 then .ok (.Text ((value - 13) / 2))
  else .panic "internal error: entered unreachable code"

/-- Decoded column values, record.rs:39-53 (`enum ColumnValue`). Integer
variants carry the decoded `i64`; `F64` carries the raw IEEE-754 bit
pattern of the 8 big-endian payload bytes; `Blob`/`Text` carry the bytes
of the borrowed payload view. -/
inductive ColumnValue where
  | Null
  | I8 (n : Int)
  | I16 (n : Int)
  | I24 (n : Int)
  | I32 (n : Int)
  | I48 (n : Int)
  | I64 (n : Int)
  | F64 (bits : Nat)
  | Zero
  | One
  | Blob (content : Bytes)
  | Text (content : Bytes)
  deriving DecidableEq, Repr

/-- Embedding of `ColumnValue::is_number` (record.rs:56-69). -/
def ColumnValue.is_number : ColumnValue → Bool
  | .I8 _ => true
  | .I16 _ => true
  | .I24 _ => true
  | .I32 _ => true
  | .I48 _ => true
  | .I64 _ => true
  | .F64 _ => true
  | .Zero => true
  | .One => true
  | .Null => false
  | .Blob _ => false
  | .Text _ => false

/-- Rust `f64 as i64` applied to an IEEE-754 bit pattern: truncation toward
zero, saturating at the `i64` range, with NaN mapped to 0. Used to embed
record.rs:82 (`ColumnValue::F64(n) => n as i64`). -/
def f64BitsToI64 (bits : Nat) : Int :=
  let b := bits % Nat.pow 2 64
  let sign := b / Nat.pow 2 63
  let ex := (b / Nat.pow 2 52) % Nat.pow 2 11
  let frac := b % Nat.pow 2 52
  if ex = 2047 then
    if frac ≠ 0 then 0
    else if sign = 1 then -(Int.ofNat (Nat.pow 2 63)) else Int.ofNat (Nat.pow 2 63) - 1
  else
    let mag : Nat :=
      if ex = 0 then 0
      else if 1075 ≤ ex then (Nat.pow 2 52 + frac) * Nat.pow 2 (ex - 1075)
      else (Nat.pow 2 52 + frac) / Nat.pow 2 (1075 - ex)
    let v : Int := if sign = 1 then -(Int.ofNat mag) else Int.ofNat mag
    if v < -(Int.ofNat (Nat.pow 2 63)) then -(Int.ofNat (Nat.pow 2 63))
    else if Int.ofNat (Nat.pow 2 63) - 1 < v then Int.ofNat (Nat.pow 2 63) - 1
    else v

/-- Embedding of `impl Into<i64> for ColumnValue` (record.rs:72-88).
`none` models the `panic!("Cannot convert to i64")` arm for blob/text. -/
def ColumnValue.intoI64 : ColumnValue → Option Int
  | .Null => some 0
  | .I8 n => some n
  | .I16 n => some n
  | .I24 n => some n
  | .I32 n => some n
  | .I48 n => some n
  | .I64 n => some n
  | .F64 bits => some (f64BitsToI64 bits)
  | .Zero => some 0
  | .One => some 1
  | .Blob _ => none
  | .Text _ => none

/-- Big-endian interpretation of a byte list as an unsigned number. -/
def beBytesToNat (bytes : Bytes) : Nat := bytes.foldl (fun acc b => acc * 256 + b) 0

/-- Embedding of the `read_n_bytes!` macro instantiated at `i64`
(record.rs:115-122): the `n` payload bytes are copied into the LOW `n`
bytes of an 8-byte buffer whose remaining high bytes stay zero, and the
buffer is read as a big-endian `i64`. Note the zero padding: there is no
sign extension from the original `n`-byte width, so for `n < 8` the result
is always the non-negative big-endian value of the `n` bytes. -/
def i64OfBe (bytes : Bytes) : Int :=
  let u : Nat := beBytesToNat bytes % Nat.pow 2 64
  if u < Nat.pow 2 63 then Int.ofNat u else Int.ofNat u - Int.ofNat (Nat.pow 2 64)

/-- One fixed-width integer read from `payload` at `cursor`
(record.rs:144-149 together with `read_n_bytes!`). Indexing past the end
of the payload slice panics in Rust. -/
def readFixed (payload : Bytes) (cursor n : Nat) (mk : Int → ColumnValue) :
    Outcome (ColumnValue × Nat) :=
  if cursor + n ≤ payload.length then
    .ok (mk (i64OfBe ((payload.drop cursor).take n)), cursor + n)
  else .panic "index out of bounds"

/-- Decode one column value at `cursor` from the record body
(record.rs:141-165). Out-of-bounds slicing panics. -/
def decodeOne (payload : Bytes) (ct : ColumnType) (cursor : Nat) :
    Outcome (ColumnValue × Nat) :=
  match ct with
  | .Null => .ok (.Null, cursor)
  | .I8 => readFixed payload cursor 1 ColumnValue.I8
  | .I16 => readFixed payload cursor 2 ColumnValue.I16
  | .I24 => readFixed payload cursor 3 ColumnValue.I24
  | .I32 => readFixed payload cursor 4 ColumnValue.I32
  | .I48 => readFixed payload cursor 6 ColumnValue.I48
  | .I64 => readFixed payload cursor 8 ColumnValue.I64
  | .F64 =>
    if cursor + 8 ≤ payload.length then
      .ok (.F64 (beBytesToNat ((payload.drop cursor).take 8)), cursor + 8)
    else .panic "index out of bounds"
  | .Zero => .ok (.Zero, cursor)
  | .One => .ok (.One, cursor)
  | .Blob size =>
    if cursor + size ≤ payload.length then
      .ok (.Blob ((payload.drop cursor).take size), cursor + size)
    else .panic "index out of bounds"
  | .Text size =>
    if cursor + size ≤ payload.length then
      .ok (.Text ((payload.drop cursor).take size), cursor + size)
    else .panic "index out of bounds"

/-- Header loop of `Record::read` (record.rs:133-138): while
`remaining_bytes > 0`, read a serial-type varint at `cursor`, classify it
and push the column type. `fuel` starts equal to `remaining` and decreases
by exactly one per iteration while `remaining` decreases by at least one
(a varint read consumes at least one byte), so the `fuel = 0` branch with
`remaining > 0` is unreachable from `Record.read`; it is mapped to a
panic to keep the function total. A varint read past the end of the
payload aborts (the real `varient::read` has no error channel), and
`remaining_bytes -= offset` underflow is modelled with overflow-checked
(panicking) semantics. -/
def parseHeaderFuel (payload : Bytes) :
    Nat → Nat → Nat → List ColumnType → Outcome (List ColumnType × Nat)
  | _, cursor, 0, acc => .ok (acc.reverse, cursor)
  | 0, _, _ + 1, _ => .panic "unreachable: a varint read consumes at least one byte"
  | fuel + 1, cursor, rem + 1, acc =>
    match varintRead (payload.drop cursor) with
    | none => .panic "truncated varint"
    | some (code, off) =>
      if off ≤ rem + 1 then
        match ColumnType.fromCode code with
        | .ok ct => parseHeaderFuel payload fuel (cursor + off) (rem + 1 - off) (ct :: acc)
        | .err m => .err m
        | .panic m => .panic m
      else .panic "attempt to subtract with overflow"

/-- Body loop of `Record::read` (record.rs:140-165): decode each column
type in order, threading the body cursor. -/
def readBody (payload : Bytes) : List ColumnType → Nat → Outcome (List ColumnValue)
  | [], _ => .ok []
  | ct :: rest, cursor =>
    match decodeOne payload ct cursor with
    | .ok (v, cursor2) =>
      match readBody payload rest cursor2 with
      | .ok vs => .ok (v :: vs)
      | .err m => .err m
      | .panic m => .panic m
    | .err m => .err m
    | .panic m => .panic m

/-- Decoded record, record.rs:109-113 (`struct Record`). -/
structure Record where
  rowid : Int
  values : List ColumnValue
  deriving DecidableEq, Repr

/-- Embedding of `Record::read(rowid, payload)` (record.rs:125-168):
read the `header_size` varint, parse the remaining header varints into
column types, then decode the body values in order. The Rust function
returns `Self` with no error channel, so every failure is a panic. -/
def Record.read (rowid : Int) (payload : Bytes) : Outcome Record :=
  match varintRead payload with
  | none => .panic "truncated varint"
  | some (header_size, off) =>
    if off ≤ header_size then
      match parseHeaderFuel payload (header_size - off) off (header_size - off) [] with
      | .ok (cols, cursor) =>
        match readBody payload cols cursor with
        | .ok vals => .ok ⟨rowid, vals⟩
        | .err m => .err m
        | .panic m => .panic m
      | .err m => .err m
      | .panic m => .panic m
    else .panic "attempt to subtract with overflow"

/-- The `ColumnValue::Text` projection used at sqlite_schema.rs:198-201
(and the analogous arms at 206-209, 213-217, 233-237): a `Text` value
yields its bytes, anything else yields `none`. The Rust code converts the
bytes to a `String` with `String::from_utf8_lossy`; we keep the raw bytes
(for the ASCII names involved the two are interchangeable, and the spec
treats encoding validity as a display-layer concern). -/
def textOf : ColumnValue → Option Bytes
  | .Text t => some t
  | _ => none

/-- Rust `i64 as u32`: two's-complement truncation to the low 32 bits
(sqlite_schema.rs:225, `page_number as u32`). -/
def u32cast (n : Int) : Nat := (n % Int.ofNat (Nat.pow 2 32)).toNat

/-- Schema-table row, sqlite_schema.rs:172-180 (`struct SQLiteSchemaRow`).
String fields are kept as their raw bytes, see `textOf`. -/
structure SQLiteSchemaRow where
  rowid : Int
  kind : Bytes
  name : Bytes
  tbl_name : Bytes
  rootpage : Nat
  sql : Bytes
  deriving DecidableEq, Repr

/-- Embedding of the record-projection part of
`impl TryFrom<Cell> for SQLiteSchemaRow` (sqlite_schema.rs:195-247):
five successive `values.next()` calls on the decoded record's value
iterator, each checked (`Text` at positions 0, 1, 2, 4; `is_number()` then
`i64`-coercion and `as u32` truncation at position 3). The surrounding
`Cell::LeafTable` unwrapping and the `Record::read` call concern the
external page/cell layer and are outside this function. Note no check
that the iterator is exhausted follows the fifth `next()`. -/
def SQLiteSchemaRow.fromRecord (rec : Record) : Except String SQLiteSchemaRow :=
  match rec.values with
  | [] => .error "Invalid schema kind"
  | v0 :: tail0 =>
    match textOf v0 with
    | none => .error "Invalid schema kind"
    | some kind =>
      match tail0 with
      | [] => .error "Invalid schema name"
      | v1 :: tail1 =>
        match textOf v1 with
        | none => .error "Invalid schema name"
        | some name =>
          match tail1 with
          | [] => .error "Invalid schema table name"
          | v2 :: tail2 =>
            match textOf v2 with
            | none => .error "Invalid schema table name"
            | some tbl_name =>
              match tail2 with
              | [] => .error "Invalid schema root page"
              | v3 :: tail3 =>
                match (if v3.is_number then v3.intoI64.map u32cast else none) with
                | none => .error "Invalid schema root page"
                | some rootpage =>
                  match tail3 with
                  | [] => .error "Invalid schema SQL"
                  | v4 :: _ =>
                    match textOf v4 with
                    | none => .error "Invalid schema SQL"
                    | some sql => .ok ⟨rec.rowid, kind, name, tbl_name, rootpage, sql⟩

/-- True exactly on a successful `Except`. -/
def isOkE {α β : Type} : Except α β → Bool
  | .ok _ => true
  | .error _ => false

/-- Table column, sqlite_schema.rs:124-128 (`struct Column`). -/
structure Column where
  name : Bytes
  is_primary_key : Bool
  deriving DecidableEq, Repr

/-- Index metadata, sqlite_schema.rs:139-145 (`struct Index`). -/
structure Index where
  name : Bytes
  columns : List Bytes
  table_name : Bytes
  rootpage : Nat
  deriving DecidableEq, Repr

/-- Table metadata, sqlite_schema.rs:84-90 (`struct Table`). -/
structure Table where
  name : Bytes
  columns : List Column
  indexes : List Index
  rootpage : Nat
  deriving DecidableEq, Repr

/-- Parsed DDL field. Modelled from the spec (§6): the `sql` module is not
under `src/`; a field carries a name and a primary-key flag. -/
structure Field where
  name : Bytes
  is_primary_key : Bool
  deriving DecidableEq, Repr

/-- Parsed `CREATE TABLE` command (table name plus ordered field list).
Modelled from the spec (§6). -/
structure CreateTableCmd where
  table : Bytes
  fields : List Field
  deriving DecidableEq, Repr

/-- Parsed `CREATE INDEX` command (index name, owning table name, ordered
column-name list). Modelled from the spec (§6). -/
structure CreateIndexCmd where
  name : Bytes
  table : Bytes
  fields : List Bytes
  deriving DecidableEq, Repr

/-- Modelled from the spec: structured result of the external DdlParser
collaborator (`sql::SQLCommand`, not under `src/`). §6: it distinguishes
at least table creation and index creation; `other` stands for any further
successfully parsed command, which §4.4 says the catalog builder ignores
(views, triggers, and so on). -/
inductive SQLCommand where
  | createTable (t : CreateTableCmd)
  | createIndex (i : CreateIndexCmd)
  | other
  deriving DecidableEq, Repr

/-- Modelled from the spec: type of the external DDL parser
(`sql::parse_create`, not under `src/`): DDL text in, structured command
or parse failure out. The catalog builder below is parameterized over it. -/
abbrev DdlParse := Bytes → Except Unit SQLCommand

/-- Embedding of `impl From<&sql::Field> for Column`
(sqlite_schema.rs:130-137). -/
def Column.ofField (f : Field) : Column := ⟨f.name, f.is_primary_key⟩

/-- ASCII bytes of the reserved prefix `"sqlite_"`. -/
def reservedBytes : Bytes := [115, 113, 108, 105, 116, 101, 95]

/-- Embedding of `Table::is_user_table` (sqlite_schema.rs:100-102):
`!self.name.starts_with("sqlite_")`. -/
def Table.is_user_table (t : Table) : Bool := ! reservedBytes.isPrefixOf t.name

/-- Association-list model of the `HashMap<String, Table>` in
`SchemaStore` (sqlite_schema.rs:12). Keys are unique; `mapInsert` replaces
the binding when the key is present, like `HashMap::insert`. The LIST
ORDER of the entries is an artifact of this model: the Rust map's
iteration order is unspecified, so every theorem about iterating the map
quantifies over permutations of its entries. -/
abbrev TableMap := List (Bytes × Table)

/-- Insert-or-replace into the association-list map (`HashMap::insert` /
`get_mut` + mutation). -/
def mapInsert (m : TableMap) (k : Bytes) (v : Table) : TableMap :=
  if m.any (fun p => decide (p.1 = k)) then
    m.map (fun p => if p.1 = k then (k, v) else p)
  else m ++ [(k, v)]

/-- Key lookup in the association-list map (`HashMap::get_mut`). -/
def mapGet (m : TableMap) (k : Bytes) : Option Table :=
  (m.find? (fun p => decide (p.1 = k))).map Prod.snd

/-- Pass 1 of `SchemaStore::read` (sqlite_schema.rs:22-39): for every row,
parse its `sql`; a parse failure aborts with the `anyhow` error
`"Failed to parse table definition"`; a `CreateTable` command builds a
`Table`, appends its name to `table_names` when it is a user table, and
inserts it into the map; any other command is skipped. -/
def pass1 (parse : DdlParse) :
    List SQLiteSchemaRow → TableMap → List Bytes → Outcome (TableMap × List Bytes)
  | [], tables, names => .ok (tables, names)
  | row :: rest, tables, names =>
    match parse row.sql with
    | .error _ => .err "Failed to parse table definition"
    | .ok (.createTable t) =>
      pass1 parse rest
        (mapInsert tables t.table ⟨t.table, t.fields.map Column.ofField, [], row.rootpage⟩)
        (if Table.is_user_table ⟨t.table, t.fields.map Column.ofField, [], row.rootpage⟩ then
          names ++ [t.table]
        else names)
    | .ok _ => pass1 parse rest tables names

/-- Pass 2 of `SchemaStore::read` (sqlite_schema.rs:41-58): for every row,
parse its `sql` again; a parse failure aborts as in pass 1; a
`CreateIndex` command builds an `Index` and pushes it onto the owning
table's `indexes`, where the `.expect("Index without table")` on the map
lookup is a panic, not a recoverable error; any other command is skipped. -/
def pass2 (parse : DdlParse) : List SQLiteSchemaRow → TableMap → Outcome TableMap
  | [], tables => .ok tables
  | row :: rest, tables =>
    match parse row.sql with
    | .error _ => .err "Failed to parse table definition"
    | .ok (.createIndex i) =>
      match mapGet tables i.table with
      | none => .panic "Index without table"
      | some t =>
        pass2 parse rest
          (mapInsert tables i.table
            ⟨t.name, t.columns, t.indexes ++ [⟨i.name, i.fields, i.table, row.rootpage⟩],
              t.rootpage⟩)
    | .ok _ => pass2 parse rest tables

/-- Catalog, sqlite_schema.rs:10-14 (`struct SchemaStore`). -/
structure SchemaStore where
  tables : TableMap
  table_names : List Bytes
  deriving DecidableEq, Repr

/-- Embedding of the two-pass body of `SchemaStore::read`
(sqlite_schema.rs:17-64), taking the already-projected schema rows (the
`SQLiteSchema::read(page)` step belongs to the external page/cell layer)
and the external DDL parser as arguments. -/
def SchemaStore.read (parse : DdlParse) (rows : List SQLiteSchemaRow) : Outcome SchemaStore :=
  match pass1 parse rows [] [] with
  | .ok (tables, names) =>
    match pass2 parse rows tables with
    | .ok tables2 => .ok ⟨tables2, names⟩
    | .err m => .err m
    | .panic m => .panic m
  | .err m => .err m
  | .panic m => .panic m

/-- The multiset of tables held by the catalog's map. -/
def SchemaStore.values (s : SchemaStore) : List Table := s.tables.map Prod.snd

/-- Embedding of `SchemaStore::user_tables` (sqlite_schema.rs:66-68):
`self.tables.values().filter(|table| table.is_user_table())`. The Rust
`HashMap::values()` iteration order is unspecified, so the function takes
the map's entries in an explicit order `entries` (any permutation of
`SchemaStore.values`). -/
def userTablesIn (entries : List Table) : List Table := entries.filter Table.is_user_table

/-- Embedding of `SchemaStore::find_table` (sqlite_schema.rs:70-72):
`self.user_tables().find(|table| table.name == table_name)`, over the same
explicit iteration order as `userTablesIn`. -/
def findTableIn (entries : List Table) (table_name : Bytes) : Option Table :=
  (userTablesIn entries).find? (fun t => decide (t.name = table_name))

/-- Single-field filter predicate. Modelled from the spec (§4.5):
`sql::WhereClause` is not under `src/`; only its `field` member is used
by the index matcher. -/
structure WhereClause where
  field : Bytes
  deriving DecidableEq, Repr

/-- Search loop of `Table::find_applicable_index` (sqlite_schema.rs:107-109):
`self.indexes.iter().find(|index| filter.field == index.columns[0])`.
The `index.columns[0]` access panics when an index's column list is
empty. -/
def findIdxGo (field : Bytes) : List Index → Outcome (Option Index)
  | [] => .ok none
  | i :: rest =>
    match i.columns with
    | [] => .panic "index out of bounds"
    | c :: _ => if field = c then .ok (some i) else findIdxGo field rest

/-- Embedding of `Table::find_applicable_index` (sqlite_schema.rs:104-110). -/
def Table.find_applicable_index (t : Table) (filter : Option WhereClause) :
    Outcome (Option Index) :=
  match filter with
  | none => .ok none
  | some f => findIdxGo f.field t.indexes

/-- The table name a schema row declares, if its sql parses as a
table-creation command: what pass 1 registers as a map key. -/
def tableNameOf (parse : DdlParse) (r : SQLiteSchemaRow) : Option Bytes :=
  match parse r.sql with
  | .ok (.createTable t) => some t.table
  | _ => none

/-- All table names pass 1 registers for a row list. -/
def declaredTables (parse : DdlParse) (rows : List SQLiteSchemaRow) : List Bytes :=
  rows.filterMap (tableNameOf parse)

/-- Concrete parser for the C4 scenario: one row whose sql is the byte
`[1]` parses as an index on table `"t"` (bytes `[116]`), everything else
as an ignored command. -/
def parseC4 : DdlParse := fun s =>
  if s = [1] then .ok (.createIndex ⟨[105], [116], [[118]]⟩) else .ok .other

/-- Concrete schema row for the C4 scenario. -/
def rowC4 : SQLiteSchemaRow := ⟨1, [], [], [], 2, [1]⟩

/-- Concrete parser mapping every sql text to a successfully parsed
non-table, non-index command (a view or trigger, say). -/
def parseOther : DdlParse := fun _ => .ok .other

/-- Concrete parser failing on every sql text. -/
def parseFail : DdlParse := fun _ => .error ()

/-- Concrete schema row for the C5 scenario. -/
def rowC5 : SQLiteSchemaRow := ⟨1, [], [], [], 2, [9]⟩

/-- Concrete parser for the C8 scenario: byte `[1]` parses as
`CREATE TABLE a`, byte `[2]` as `CREATE TABLE b`. -/
def parseC8 : DdlParse := fun s =>
  if s = [1] then .ok (.createTable ⟨[97], []⟩)
  else if s = [2] then .ok (.createTable ⟨[98], []⟩)
  else .ok .other

/-- Concrete schema rows for the C8 scenario. -/
def rowsC8 : List SQLiteSchemaRow := [⟨1, [], [], [], 2, [1]⟩, ⟨2, [], [], [], 3, [2]⟩]

/-- The table named `"a"` that `parseC8`/`rowsC8` produce. -/
def tA : Table := ⟨[97], [], [], 2⟩

/-- The table named `"b"` that `parseC8`/`rowsC8` produce. -/
def tB : Table := ⟨[98], [], [], 3⟩

/-- C1: the claim (and the spec, §4.3/§9) requires sign extension of
fixed-width integers from their declared width, but `read_n_bytes!`
zero-pads the big-endian bytes into the high-zeroed 8-byte buffer, so a
record whose header declares one `Int(1)` column with body byte `0x80`
decodes that column to `+128`, not `-128`; likewise a 3-byte `0xFFFFFF`
decodes to `+16777215`, not `-1`. This theorem evaluates the embedded
decoder at those failing inputs, exhibiting the code bug. -/
theorem c1_no_sign_extension_eval :
    Record.read 1 [2, 1, 128] = .ok ⟨1, [.I8 128]⟩ ∧
    Record.read 1 [2, 1, 128] ≠ .ok ⟨1, [.I8 (-128)]⟩ ∧
    Record.read 7 [2, 3, 255, 255, 255] = .ok ⟨7, [.I24 16777215]⟩ := by decide

/-- C2: the claim says the classifier maps every even code ≥ 12 to
`Blob((code-12)/2)` and every odd code ≥ 13 to `Text((code-13)/2)`, in
particular 12 ↦ `Blob(0)` and 13 ↦ `Text(0)`; but the source guards are
`n > 12` and `n > 13`, so codes 12 and 13 fall through to `unreachable!()`
and the process aborts, while 14 and 15 behave as claimed. This theorem
evaluates the embedded classifier at the failing inputs 12 and 13. -/
theorem c2_codes_12_13_hit_unreachable :
    ColumnType.fromCode 12 = .panic "internal error: entered unreachable code" ∧
    ColumnType.fromCode 13 = .panic "internal error: entered unreachable code" ∧
    ColumnType.fromCode 14 = .ok (.Blob 1) ∧
    ColumnType.fromCode 15 = .ok (.Text 1) := by decide

/-- C3, counterexample: the claim says classifying code 10 or 11 fails
with a RECOVERABLE `InvalidSerialType` error rather than a process abort,
but `From<u64> for ColumnType` returns plain `Self` with an
`unreachable!()` catch-all: at code 10 (and 11) the classifier aborts the
process, and a record decode whose header carries code 10 aborts as well —
no recoverable error value exists. -/
theorem c3_counterexample :
    ColumnType.fromCode 10 = .panic "internal error: entered unreachable code" ∧
    (ColumnType.fromCode 10).isErr = false ∧
    ColumnType.fromCode 11 = .panic "internal error: entered unreachable code" ∧
    (ColumnType.fromCode 11).isErr = false ∧
    Record.read 1 [2, 10] = .panic "internal error: entered unreachable code" ∧
    (Record.read 1 [2, 10]).isErr = false := by decide

/-- C3, amended: classifying serial-type code 10 or 11 rejects the code by
a panic (`unreachable!()`, a process abort), not by a recoverable error,
and a record decode that encounters such a code in its header panics
rather than producing a `Record`. -/
theorem c3_codes_10_11_abort (c : Nat) (h : c = 10 ∨ c = 11) :
    ColumnType.fromCode c = .panic "internal error: entered unreachable code" ∧
    Record.read 1 [2, c] = .panic "internal error: entered unreachable code" := by
  rcases h with rfl | rfl
  · exact ⟨by decide, by decide⟩
  · exact ⟨by decide, by decide⟩

/-- C3, witness: the amended theorem applied at code 10. -/
theorem c3_codes_10_11_abort_witness :
    ColumnType.fromCode 10 = .panic "internal error: entered unreachable code" ∧
    Record.read 1 [2, 10] = .panic "internal error: entered unreachable code" :=
  c3_codes_10_11_abort 10 (Or.inl rfl)

/-- The serial-type classifier never produces a recoverable error: its
only failure mode is the `unreachable!()` panic. -/
theorem fromCode_ne_err (n : Nat) : (ColumnType.fromCode n).isErr = false := by
  by_cases h0 : n = 0
  · subst h0; decide
  by_cases h1 : n = 1
  · subst h1; decide
  by_cases h2 : n = 2
  · subst h2; decide
  by_cases h3 : n = 3
  · subst h3; decide
  by_cases h4 : n = 4
  · subst h4; decide
  by_cases h5 : n = 5
  · subst h5; decide
  by_cases h6 : n = 6
  · subst h6; decide
  by_cases h7 : n = 7
  · subst h7; decide
  by_cases h8 : n = 8
  · subst h8; decide
  by_cases h9 : n = 9
  · subst h9; decide
  unfold ColumnType.fromCode
  rw [if_neg h0, if_neg h1, if_neg h2, if_neg h3, if_neg h4, if_neg h5, if_neg h6,
    if_neg h7, if_neg h8, if_neg h9]
  by_cases hb : n > 12 ∧ n % 2 = 0
  · rw [if_pos hb]; rfl
  · rw [if_neg hb]
    by_cases ht : n > 13 ∧ n % 2 = 1
    · rw [if_pos ht]; rfl
    · rw [if_neg ht]; rfl

/-- A single body-value decode never produces a recoverable error: its
only failure mode is the out-of-bounds panic. -/
theorem decodeOne_ne_err (payload : Bytes) (ct : ColumnType) (cursor : Nat) :
    (decodeOne payload ct cursor).isErr = false := by
  cases ct <;> simp only [decodeOne, readFixed] <;> first
    | rfl
    | (split <;> rfl)

/-- The body loop never produces a recoverable error. -/
theorem readBody_ne_err (payload : Bytes) (cols : List ColumnType) (cursor : Nat) :
    (readBody payload cols cursor).isErr = false := by
  induction cols generalizing cursor with
  | nil => rfl
  | cons ct rest ih =>
    cases h : decodeOne payload ct cursor with
    | ok p =>
      obtain ⟨v, c2⟩ := p
      cases h2 : readBody payload rest c2 with
      | ok vs => simp only [readBody, h, h2, Outcome.isErr]
      | err m => have hr := ih c2; rw [h2] at hr; simp [Outcome.isErr] at hr
      | panic m => simp only [readBody, h, h2, Outcome.isErr]
    | err m =>
      have hd := decodeOne_ne_err payload ct cursor
      rw [h] at hd; simp [Outcome.isErr] at hd
    | panic m => simp only [readBody, h, Outcome.isErr]

/-- The header loop never produces a recoverable error. -/
theorem parseHeaderFuel_ne_err (payload : Bytes) (fuel cursor rem : Nat)
    (acc : List ColumnType) :
    (parseHeaderFuel payload fuel cursor rem acc).isErr = false := by
  induction fuel generalizing cursor rem acc with
  | zero => cases rem with
    | zero => rfl
    | succ r => rfl
  | succ fuel ih =>
    cases rem with
    | zero => rfl
    | succ r =>
      cases hv : varintRead (payload.drop cursor) with
      | none => simp only [parseHeaderFuel, hv, Outcome.isErr]
      | some p =>
        obtain ⟨code, off⟩ := p
        by_cases hoff : off ≤ r + 1
        · cases hc : ColumnType.fromCode code with
          | ok ct =>
            have hrec := ih (cursor + off) (r + 1 - off) (ct :: acc)
            simp only [parseHeaderFuel, hv, hc, if_pos hoff]
            exact hrec
          | err m =>
            have h2 := fromCode_ne_err code
            rw [hc] at h2; simp [Outcome.isErr] at h2
          | panic m =>
            simp only [parseHeaderFuel, hv, hc, if_pos hoff, Outcome.isErr]
        · simp only [parseHeaderFuel, hv, if_neg hoff, Outcome.isErr]

/-- C7, amended: `Record::read` returns plain `Self` — it has no
recoverable error channel at all, so no decode ever yields a
`PayloadTooShort` (or any other) recoverable error; every read that would
exceed the payload's bounds aborts the process with an
index-out-of-bounds panic instead (the counterexample theorem exhibits a
concrete such panic). -/
theorem c7_decode_never_recoverable_error (rowid : Int) (payload : Bytes) :
    (Record.read rowid payload).isErr = false := by
  cases hv : varintRead payload with
  | none => simp only [Record.read, hv, Outcome.isErr]
  | some p =>
    obtain ⟨hs, off⟩ := p
    by_cases hoff : off ≤ hs
    · cases h : parseHeaderFuel payload (hs - off) off (hs - off) [] with
      | ok pr =>
        obtain ⟨cols, cursor⟩ := pr
        cases h2 : readBody payload cols cursor with
        | ok vals => simp only [Record.read, hv, if_pos hoff, h, h2, Outcome.isErr]
        | err m =>
          have hb := readBody_ne_err payload cols cursor
          rw [h2] at hb; simp [Outcome.isErr] at hb
        | panic m => simp only [Record.read, hv, if_pos hoff, h, h2, Outcome.isErr]
      | err m =>
        have hp := parseHeaderFuel_ne_err payload (hs - off) off (hs - off) []
        rw [h] at hp; simp [Outcome.isErr] at hp
      | panic m => simp only [Record.read, hv, if_pos hoff, h, Outcome.isErr]
    · simp only [Record.read, hv, if_neg hoff, Outcome.isErr]

/-- C7, counterexample: the claim says a decode read exceeding the payload
bounds fails with a recoverable `PayloadTooShort` error; but for the
payload `[0x02, 0x01]` — a header declaring one `Int(1)` column with no
body byte behind it — the decoder's slice access panics (a process
abort), and no recoverable error is produced. -/
theorem c7_counterexample :
    Record.read 1 [2, 1] = .panic "index out of bounds" ∧
    (Record.read 1 [2, 1]).isErr = false := by decide

/-- A number-classified column value always admits the `i64` coercion. -/
theorem intoI64_isSome_of_is_number (v : ColumnValue) (h : v.is_number = true) :
    ∃ n, v.intoI64 = some n := by
  cases v <;> first
    | exact ⟨_, rfl⟩
    | simp [ColumnValue.is_number] at h

/-- C6, counterexample: the claim says the projection requires EXACTLY
five values and fails on a record with more than five; but the source
never checks that the value iterator is exhausted after the fifth
`next()`, so this six-value record projects successfully, the trailing
`Null` silently ignored. -/
theorem c6_counterexample :
    SQLiteSchemaRow.fromRecord
        ⟨1, [.Text [97], .Text [98], .Text [99], .I8 5, .Text [100], .Null]⟩
      = .ok ⟨1, [97], [98], [99], 5, [100]⟩ ∧
    ([ColumnValue.Text [97], .Text [98], .Text [99], .I8 5, .Text [100], .Null]).length = 6 :=
  ⟨rfl, rfl⟩

/-- C6, amended: projecting a decoded `Record` into a schema row requires
AT LEAST five values in fixed order — positions 0, 1, 2, 4 must be `Text`
and position 3 must satisfy `is_number()` (coerced by `as u32` truncation
to the root page id) — and fails with an error naming the offending field
on any violation among the first five positions or when fewer than five
values exist; values beyond the fifth are ignored, not rejected. -/
theorem c6_schema_row_shape (rowid : Int) (vs : List ColumnValue) :
    (∀ v0 v1 v2 v3 v4 rest, vs = v0 :: v1 :: v2 :: v3 :: v4 :: rest →
      (isOkE (SQLiteSchemaRow.fromRecord ⟨rowid, vs⟩) = true ↔
        (textOf v0).isSome = true ∧ (textOf v1).isSome = true ∧ (textOf v2).isSome = true ∧
          v3.is_number = true ∧ (textOf v4).isSome = true)) ∧
    (vs.length < 5 → isOkE (SQLiteSchemaRow.fromRecord ⟨rowid, vs⟩) = false) ∧
    (∀ k nm tb v3 s rest pn,
      vs = .Text k :: .Text nm :: .Text tb :: v3 :: .Text s :: rest →
      v3.is_number = true → v3.intoI64 = some pn →
      SQLiteSchemaRow.fromRecord ⟨rowid, vs⟩ = .ok ⟨rowid, k, nm, tb, u32cast pn, s⟩) := by
  refine ⟨?_, ?_, ?_⟩
  · intro v0 v1 v2 v3 v4 rest hvs
    subst hvs
    simp only [SQLiteSchemaRow.fromRecord]
    cases ht0 : textOf v0 with
    | none => simp [isOkE, ht0]
    | some k =>
      cases ht1 : textOf v1 with
      | none => simp [isOkE, ht0, ht1]
      | some nm =>
        cases ht2 : textOf v2 with
        | none => simp [isOkE, ht0, ht1, ht2]
        | some tb =>
          cases hn : v3.is_number with
          | false => simp [isOkE, ht0, ht1, ht2, hn]
          | true =>
            obtain ⟨pn, hpn⟩ := intoI64_isSome_of_is_number v3 hn
            cases ht4 : textOf v4 with
            | none => simp [isOkE, ht0, ht1, ht2, hn, hpn, ht4]
            | some s => simp [isOkE, ht0, ht1, ht2, hn, hpn, ht4]
  · intro hlen
    rcases vs with _ | ⟨v0, _ | ⟨v1, _ | ⟨v2, _ | ⟨v3, _ | ⟨v4, rest⟩⟩⟩⟩⟩
    · rfl
    · simp only [SQLiteSchemaRow.fromRecord]
      repeat' split
      all_goals rfl
    · simp only [SQLiteSchemaRow.fromRecord]
      repeat' split
      all_goals rfl
    · simp only [SQLiteSchemaRow.fromRecord]
      repeat' split
      all_goals rfl
    · simp only [SQLiteSchemaRow.fromRecord]
      repeat' split
      all_goals rfl
    · exact absurd hlen (by simp)
  · intro k nm tb v3 s rest pn hvs hn hpn
    subst hvs
    simp [SQLiteSchemaRow.fromRecord, textOf, hn, hpn]

/-- C6, witness: the amended theorem's projection clause applied to a
concrete five-value record. -/
theorem c6_schema_row_shape_witness :
    SQLiteSchemaRow.fromRecord ⟨9, [.Text [116], .Text [117], .Text [118], .One, .Text [119]]⟩
      = .ok ⟨9, [116], [117], [118], u32cast 1, [119]⟩ :=
  (c6_schema_row_shape 9 [.Text [116], .Text [117], .Text [118], .One, .Text [119]]).2.2
    [116] [117] [118] .One [119] [] 1 rfl rfl rfl

/-- When every index has a nonempty column list, the matcher's search
loop is the plain first-match `find?` on the leading column. -/
theorem findIdxGo_eq_find (field : Bytes) (idxs : List Index)
    (h : ∀ i ∈ idxs, i.columns ≠ []) :
    findIdxGo field idxs
      = .ok (idxs.find? (fun i => decide (i.columns.head? = some field))) := by
  induction idxs with
  | nil => rfl
  | cons i rest ih =>
    have hi : i.columns ≠ [] := h i (by simp)
    obtain ⟨c, cs, hc⟩ : ∃ c cs, i.columns = c :: cs := by
      cases hcol : i.columns with
      | nil => exact absurd hcol hi
      | cons c cs => exact ⟨c, cs, rfl⟩
    have hrest : ∀ j ∈ rest, j.columns ≠ [] := fun j hj => h j (by simp [hj])
    by_cases hf : field = c
    · subst hf
      simp [findIdxGo, hc, List.find?]
    · have hcf : ¬(c = field) := fun hh => hf hh.symm
      simp [findIdxGo, hc, hf, hcf, List.find?, ih hrest]

/-- C9: `find_applicable_index` returns `None` whenever the filter is
absent; with a filter present, and under the precondition (made explicit
by claim C10) that every index on the table has at least one column, it
returns exactly the first index in `table.indexes` order whose leading
(position-0) column equals `filter.field` — `find?` over the heads, so
non-leading columns are never inspected — and `None` when no leading
column matches. -/
theorem c9_find_applicable_index (t : Table) :
    Table.find_applicable_index t none = .ok none ∧
    ∀ f : WhereClause, (∀ i ∈ t.indexes, i.columns ≠ []) →
      Table.find_applicable_index t (some f)
        = .ok (t.indexes.find? (fun i => decide (i.columns.head? = some f.field))) := by
  refine ⟨rfl, ?_⟩
  intro f h
  exact findIdxGo_eq_find f.field t.indexes h

/-- C9, witness: the theorem applied to a one-index table, first with no
filter, then with a filter matching the index's leading column. -/
theorem c9_find_applicable_index_witness :
    Table.find_applicable_index ⟨[116], [], [⟨[105], [[118]], [116], 4⟩], 3⟩ none = .ok none ∧
    Table.find_applicable_index ⟨[116], [], [⟨[105], [[118]], [116], 4⟩], 3⟩ (some ⟨[118]⟩)
      = .ok (some ⟨[105], [[118]], [116], 4⟩) := by
  refine ⟨(c9_find_applicable_index _).1, ?_⟩
  have h := (c9_find_applicable_index ⟨[116], [], [⟨[105], [[118]], [116], 4⟩], 3⟩).2
    ⟨[118]⟩ (by decide)
  exact h.trans (by decide)

/-- C10, counterexample: the claim says that WHENEVER a filter is present
and the table contains an empty-columns index, the matcher reaches that
index's position-0 access and panics; but when an earlier index's leading
column already matches the filter field, `find` returns before the empty
index is inspected: this table has an empty-columns index in second
position, yet the call returns the first index without panicking. -/
theorem c10_counterexample :
    Table.find_applicable_index
        ⟨[116], [], [⟨[103], [[118]], [116], 4⟩, ⟨[98], [], [116], 5⟩], 2⟩
        (some ⟨[118]⟩)
      = .ok (some ⟨[103], [[118]], [116], 4⟩) ∧
    (Table.find_applicable_index
        ⟨[116], [], [⟨[103], [[118]], [116], 4⟩, ⟨[98], [], [116], 5⟩], 2⟩
        (some ⟨[118]⟩)).isPanicky = false := by decide

/-- The matcher's search loop panics at the first empty-columns index when
every earlier index has a non-matching leading column. -/
theorem findIdxGo_panic_of_empty (field : Bytes) (pre : List Index) :
    ∀ bad rest, bad.columns = [] →
      (∀ i ∈ pre, ∃ c cs, i.columns = c :: cs ∧ c ≠ field) →
      findIdxGo field (pre ++ bad :: rest) = .panic "index out of bounds" := by
  induction pre with
  | nil =>
    intro bad rest hbad _
    simp [findIdxGo, hbad]
  | cons i pre ih =>
    intro bad rest hbad hpre
    obtain ⟨c, cs, hc, hne⟩ := hpre i (by simp)
    have hrest : ∀ j ∈ pre, ∃ c cs, j.columns = c :: cs ∧ c ≠ field :=
      fun j hj => hpre j (by simp [hj])
    have hfc : ¬(field = c) := fun hh => hne hh.symm
    simp [findIdxGo, hc, hfc, ih bad rest hbad hrest]

/-- C10, amended: with a filter present, `find_applicable_index` reaches
an empty-columns index's position-0 access — and panics out of bounds —
exactly when no EARLIER index's leading column equals `filter.field`
(an earlier match returns first); consequently the call is panic-free for
every filter only under the unstated precondition that every index
registered on the table has at least one column. -/
theorem c10_empty_columns_index (t : Table) (f : WhereClause) :
    (∀ pre bad rest, t.indexes = pre ++ bad :: rest → bad.columns = [] →
      (∀ i ∈ pre, ∃ c cs, i.columns = c :: cs ∧ c ≠ f.field) →
      Table.find_applicable_index t (some f) = .panic "index out of bounds") ∧
    ((∀ i ∈ t.indexes, i.columns ≠ []) →
      (Table.find_applicable_index t (some f)).isPanicky = false) := by
  constructor
  · intro pre bad rest hsplit hbad hpre
    show findIdxGo f.field t.indexes = .panic "index out of bounds"
    rw [hsplit]
    exact findIdxGo_panic_of_empty f.field pre bad rest hbad hpre
  · intro h
    show (findIdxGo f.field t.indexes).isPanicky = false
    rw [findIdxGo_eq_find f.field t.indexes h]
    rfl

/-- C10, witness: the amended theorem applied to a table whose only index
has an empty column list. -/
theorem c10_empty_columns_index_witness :
    Table.find_applicable_index ⟨[116], [], [⟨[98], [], [116], 5⟩], 2⟩ (some ⟨[118]⟩)
      = .panic "index out of bounds" :=
  (c10_empty_columns_index ⟨[116], [], [⟨[98], [], [116], 5⟩], 2⟩ ⟨[118]⟩).1
    [] ⟨[98], [], [116], 5⟩ [] rfl rfl (by simp)

/-- A map lookup misses exactly when no entry carries the key. -/
theorem mapGet_eq_none_iff (m : TableMap) (k : Bytes) :
    mapGet m k = none ↔ ∀ p ∈ m, p.1 ≠ k := by
  simp [mapGet, List.find?_eq_none]

/-- A lookup misses the map after an insert at `k0` exactly when it missed
before and the key is not `k0`. -/
theorem mapGet_mapInsert_none (m : TableMap) (k0 : Bytes) (v : Table) (k : Bytes) :
    mapGet (mapInsert m k0 v) k = none ↔ (mapGet m k = none ∧ k ≠ k0) := by
  unfold mapInsert
  by_cases hmem : m.any (fun p => decide (p.1 = k0)) = true
  · rw [if_pos hmem]
    obtain ⟨q, hq, hqk⟩ := List.any_eq_true.mp hmem
    have hq0 : q.1 = k0 := of_decide_eq_true hqk
    simp only [mapGet_eq_none_iff, List.mem_map]
    constructor
    · intro h
      constructor
      · intro p hp
        have hthis := h (if p.1 = k0 then (k0, v) else p) ⟨p, hp, rfl⟩
        by_cases hpk : p.1 = k0
        · rw [if_pos hpk] at hthis
          rw [hpk]
          exact hthis
        · rw [if_neg hpk] at hthis
          exact hthis
      · intro hkk0
        have hthis := h (if q.1 = k0 then (k0, v) else q) ⟨q, hq, rfl⟩
        rw [if_pos hq0] at hthis
        exact hthis hkk0.symm
    · rintro ⟨h1, h2⟩ p ⟨a, ha, rfl⟩
      by_cases hak : a.1 = k0
      · rw [if_pos hak]
        exact fun hc => h2 hc.symm
      · rw [if_neg hak]
        exact h1 a ha
  · rw [if_neg hmem]
    simp only [mapGet_eq_none_iff, List.mem_append, List.mem_singleton]
    constructor
    · intro h
      refine ⟨fun p hp => h p (Or.inl hp), ?_⟩
      have hthis := h (k0, v) (Or.inr rfl)
      exact fun hk => hthis hk.symm
    · rintro ⟨h1, h2⟩ p hp
      rcases hp with hp | rfl
      · exact h1 p hp
      · exact fun hc => h2 hc.symm

/-- When every row's sql parses, pass 1 succeeds, and its resulting map
misses a key exactly when the initial map missed it and no row declares a
table of that name. -/
theorem pass1_ok_keys (parse : DdlParse) (rows : List SQLiteSchemaRow) :
    ∀ (tables : TableMap) (names : List Bytes),
      (∀ r ∈ rows, ∃ c, parse r.sql = .ok c) →
      ∃ tables2 names2, pass1 parse rows tables names = .ok (tables2, names2) ∧
        ∀ k, (mapGet tables2 k = none ↔
          (mapGet tables k = none ∧ k ∉ declaredTables parse rows)) := by
  induction rows with
  | nil =>
    intro tables names _
    exact ⟨tables, names, rfl, fun k => by simp [declaredTables]⟩
  | cons row rest ih =>
    intro tables names hok
    obtain ⟨c, hc⟩ := hok row (List.mem_cons_self row rest)
    have hrest : ∀ r ∈ rest, ∃ c2, parse r.sql = .ok c2 :=
      fun r hr => hok r (List.mem_cons_of_mem row hr)
    cases c with
    | createTable t =>
      obtain ⟨tables2, names2, heq, hkeys⟩ :=
        ih (mapInsert tables t.table ⟨t.table, t.fields.map Column.ofField, [], row.rootpage⟩)
          (if Table.is_user_table ⟨t.table, t.fields.map Column.ofField, [], row.rootpage⟩ then
            names ++ [t.table] else names) hrest
      refine ⟨tables2, names2, ?_, ?_⟩
      · simp only [pass1, hc]
        exact heq
      · intro k
        have hdecl : declaredTables parse (row :: rest)
            = t.table :: declaredTables parse rest := by
          simp [declaredTables, tableNameOf, hc]
        rw [hkeys k, mapGet_mapInsert_none, hdecl]
        simp only [List.mem_cons, not_or]
        tauto
    | createIndex i =>
      obtain ⟨tables2, names2, heq, hkeys⟩ := ih tables names hrest
      refine ⟨tables2, names2, ?_, ?_⟩
      · simp only [pass1, hc]
        exact heq
      · intro k
        have hdecl : declaredTables parse (row :: rest) = declaredTables parse rest := by
          simp [declaredTables, tableNameOf, hc]
        rw [hkeys k, hdecl]
    | other =>
      obtain ⟨tables2, names2, heq, hkeys⟩ := ih tables names hrest
      refine ⟨tables2, names2, ?_, ?_⟩
      · simp only [pass1, hc]
        exact heq
      · intro k
        have hdecl : declaredTables parse (row :: rest) = declaredTables parse rest := by
          simp [declaredTables, tableNameOf, hc]
        rw [hkeys k, hdecl]

/-- A parse failure on any row aborts pass 1 with the builder's error. -/
theorem pass1_err_of_parse_error (parse : DdlParse) (rows : List SQLiteSchemaRow) :
    ∀ (tables : TableMap) (names : List Bytes),
      (∃ r ∈ rows, parse r.sql = .error ()) →
      pass1 parse rows tables names = .err "Failed to parse table definition" := by
  induction rows with
  | nil =>
    rintro tables names ⟨r, hr, _⟩
    exact absurd hr (List.not_mem_nil r)
  | cons row rest ih =>
    rintro tables names ⟨r, hr, herr⟩
    rcases List.mem_cons.mp hr with rfl | hr2
    · simp only [pass1, herr]
    · cases hc : parse row.sql with
      | error e =>
        cases e
        simp only [pass1, hc]
      | ok c =>
        cases c with
        | createTable t =>
          simp only [pass1, hc]
          exact ih _ _ ⟨r, hr2, herr⟩
        | createIndex i =>
          simp only [pass1, hc]
          exact ih _ _ ⟨r, hr2, herr⟩
        | other =>
          simp only [pass1, hc]
          exact ih _ _ ⟨r, hr2, herr⟩

/-- When every row's sql parses and some index row's owning table misses
the map, pass 2 panics with the `.expect` message. -/
theorem pass2_panic_of_orphan (parse : DdlParse) (rows : List SQLiteSchemaRow) :
    ∀ tables : TableMap,
      (∀ r ∈ rows, ∃ c, parse r.sql = .ok c) →
      (∃ r ∈ rows, ∃ i, parse r.sql = .ok (.createIndex i) ∧ mapGet tables i.table = none) →
      pass2 parse rows tables = .panic "Index without table" := by
  induction rows with
  | nil =>
    rintro tables _ ⟨r, hr, _⟩
    exact absurd hr (List.not_mem_nil r)
  | cons row rest ih =>
    rintro tables hok ⟨r, hr, i, hi, horphan⟩
    have hrest : ∀ r2 ∈ rest, ∃ c, parse r2.sql = .ok c :=
      fun r2 h2 => hok r2 (List.mem_cons_of_mem row h2)
    rcases List.mem_cons.mp hr with rfl | hr2
    · simp only [pass2, hi, horphan]
    · cases hc : parse row.sql with
      | error e =>
        obtain ⟨c2, hc2⟩ := hok row (List.mem_cons_self row rest)
        rw [hc2] at hc
        simp at hc
      | ok c =>
        cases c with
        | createTable t =>
          simp only [pass2, hc]
          exact ih tables hrest ⟨r, hr2, i, hi, horphan⟩
        | other =>
          simp only [pass2, hc]
          exact ih tables hrest ⟨r, hr2, i, hi, horphan⟩
        | createIndex j =>
          cases hg : mapGet tables j.table with
          | none => simp only [pass2, hc, hg]
          | some tt =>
            simp only [pass2, hc, hg]
            apply ih _ hrest
            refine ⟨r, hr2, i, hi, ?_⟩
            rw [mapGet_mapInsert_none]
            refine ⟨horphan, ?_⟩
            intro hk
            rw [hk, hg] at horphan
            exact Option.noConfusion horphan

/-- A row parsing to a non-table, non-index command is invisible to
pass 1. -/
theorem pass1_skip_other (parse : DdlParse) (r : SQLiteSchemaRow)
    (hother : parse r.sql = .ok .other) (xs : List SQLiteSchemaRow) :
    ∀ (ys : List SQLiteSchemaRow) (tables : TableMap) (names : List Bytes),
      pass1 parse (xs ++ r :: ys) tables names = pass1 parse (xs ++ ys) tables names := by
  induction xs with
  | nil =>
    intro ys tables names
    simp only [List.nil_append, pass1, hother]
  | cons x xs ih =>
    intro ys tables names
    cases hc : parse x.sql with
    | error e => simp only [List.cons_append, pass1, hc]
    | ok c =>
      cases c with
      | createTable t =>
        simp only [List.cons_append, pass1, hc]
        exact ih ys _ _
      | createIndex i =>
        simp only [List.cons_append, pass1, hc]
        exact ih ys tables names
      | other =>
        simp only [List.cons_append, pass1, hc]
        exact ih ys tables names

/-- A row parsing to a non-table, non-index command is invisible to
pass 2. -/
theorem pass2_skip_other (parse : DdlParse) (r : SQLiteSchemaRow)
    (hother : parse r.sql = .ok .other) (xs : List SQLiteSchemaRow) :
    ∀ (ys : List SQLiteSchemaRow) (tables : TableMap),
      pass2 parse (xs ++ r :: ys) tables = pass2 parse (xs ++ ys) tables := by
  induction xs with
  | nil =>
    intro ys tables
    simp only [List.nil_append, pass2, hother]
  | cons x xs ih =>
    intro ys tables
    cases hc : parse x.sql with
    | error e => simp only [List.cons_append, pass2, hc]
    | ok c =>
      cases c with
      | createTable t =>
        simp only [List.cons_append, pass2, hc]
        exact ih ys tables
      | other =>
        simp only [List.cons_append, pass2, hc]
        exact ih ys tables
      | createIndex i =>
        cases hg : mapGet tables i.table with
        | none => simp only [List.cons_append, pass2, hc, hg]
        | some t =>
          simp only [List.cons_append, pass2, hc, hg]
          exact ih ys _

/-- C4, counterexample: the claim says an orphan index row makes the
build fail with a RECOVERABLE `OrphanIndex` error; but the source reaches
`.expect("Index without table")`, a panic that aborts the process — the
outcome is a panic and not a recoverable error value. -/
theorem c4_counterexample :
    SchemaStore.read parseC4 [rowC4] = .panic "Index without table" ∧
    (SchemaStore.read parseC4 [rowC4]).isErr = false :=
  ⟨rfl, rfl⟩

/-- C4, amended: when every schema row's sql parses and some row parses
as an index on a table name that no row declares (so pass 1 cannot have
registered it), `SchemaStore::read` PANICS with the
`.expect("Index without table")` abort — not a recoverable error — and no
catalog is returned, not even a piece of one. -/
theorem c4_orphan_index_panics (parse : DdlParse) (rows : List SQLiteSchemaRow)
    (hok : ∀ r ∈ rows, ∃ c, parse r.sql = .ok c)
    (horphan : ∃ r ∈ rows, ∃ i, parse r.sql = .ok (.createIndex i) ∧
      i.table ∉ declaredTables parse rows) :
    SchemaStore.read parse rows = .panic "Index without table" := by
  obtain ⟨tables2, names2, h1, hkeys⟩ := pass1_ok_keys parse rows [] [] hok
  have h2 : pass2 parse rows tables2 = .panic "Index without table" := by
    apply pass2_panic_of_orphan parse rows tables2 hok
    obtain ⟨r, hr, i, hi, hnot⟩ := horphan
    exact ⟨r, hr, i, hi, (hkeys i.table).mpr ⟨rfl, hnot⟩⟩
  simp only [SchemaStore.read, h1, h2]

/-- C4, witness: the amended theorem applied to a one-row schema whose
single row is an index on an undeclared table. -/
theorem c4_orphan_index_panics_witness :
    SchemaStore.read parseC4 [rowC4] = .panic "Index without table" := by
  apply c4_orphan_index_panics
  · intro r hr
    rcases List.mem_singleton.mp hr with rfl
    exact ⟨_, rfl⟩
  · exact ⟨rowC4, List.mem_singleton.mpr rfl, ⟨[105], [116], [[118]]⟩, rfl, by decide⟩

/-- C5: a schema row whose sql parses as neither a table-creation nor an
index-creation command is skipped without error — removing it leaves the
whole build's result unchanged — while a row whose sql fails to parse
aborts the whole build with the recoverable parse error, whatever the
other rows contain. Holds for every DDL parser. -/
theorem c5_non_ddl_rows_skipped (parse : DdlParse) (rows1 rows2 : List SQLiteSchemaRow)
    (r : SQLiteSchemaRow) :
    (parse r.sql = .ok .other →
      SchemaStore.read parse (rows1 ++ r :: rows2) = SchemaStore.read parse (rows1 ++ rows2)) ∧
    (parse r.sql = .error () →
      SchemaStore.read parse (rows1 ++ r :: rows2)
        = .err "Failed to parse table definition") := by
  constructor
  · intro hother
    have h1 := pass1_skip_other parse r hother rows1
    have h2 := pass2_skip_other parse r hother rows1
    simp only [SchemaStore.read, h1, h2]
  · intro herr
    have h1 := pass1_err_of_parse_error parse (rows1 ++ r :: rows2) [] [] ⟨r, by simp, herr⟩
    simp only [SchemaStore.read, h1]

/-- C5, witness: the theorem applied to a parser treating every row as a
view-like command (the row is skipped and the build succeeds identically)
and to a parser failing on the row (the build aborts with the parse
error). -/
theorem c5_non_ddl_rows_skipped_witness :
    SchemaStore.read parseOther ([] ++ rowC5 :: []) = SchemaStore.read parseOther ([] ++ []) ∧
    SchemaStore.read parseFail ([] ++ rowC5 :: []) = .err "Failed to parse table definition" :=
  ⟨(c5_non_ddl_rows_skipped parseOther [] [] rowC5).1 rfl,
   (c5_non_ddl_rows_skipped parseFail [] [] rowC5).2 rfl⟩

/-- C8, counterexample: the claim says `user_tables()` enumerates the user
tables in `table_names` first-seen order; but the source iterates
`HashMap::values()`, whose order the language does not specify. For the
two-user-table catalog built here, `[tB, tA]` is a permutation of the
map's values — a legal hash-map iteration order — and filtering it yields
`[tB, tA]`, not the `table_names` order `[tA, tB]`. -/
theorem c8_counterexample :
    SchemaStore.read parseC8 rowsC8 = .ok ⟨[([97], tA), ([98], tB)], [[97], [98]]⟩ ∧
    List.Perm [tB, tA] (SchemaStore.values ⟨[([97], tA), ([98], tB)], [[97], [98]]⟩) ∧
    userTablesIn [tB, tA] = [tB, tA] ∧
    [tB, tA] ≠ [tA, tB] ∧
    SchemaStore.table_names ⟨[([97], tA), ([98], tB)], [[97], [98]]⟩ = [tA.name, tB.name] :=
  ⟨rfl, by decide, rfl, by decide, rfl⟩

/-- C8, amended: in whatever (unspecified) order the hash map's values are
iterated, `user_tables()` enumerates exactly the catalog tables whose
names lack the reserved `"sqlite_"` prefix — a permutation of the user
tables, with no order guarantee relative to `table_names` — and
`find_table` returns `Some` only for such user tables: any hit is a user
table with the requested name, and a reserved-prefix name never hits even
when present in the map. -/
theorem c8_user_tables_unordered (entries : List Table) (s : SchemaStore)
    (hperm : entries.Perm s.values) :
    (userTablesIn entries).Perm (s.values.filter Table.is_user_table) ∧
    (∀ nm t, findTableIn entries nm = some t → t.is_user_table = true ∧ t.name = nm) ∧
    (∀ nm, reservedBytes.isPrefixOf nm = true → findTableIn entries nm = none) := by
  refine ⟨List.Perm.filter _ hperm, ?_, ?_⟩
  · intro nm t hfind
    have hfind2 : (userTablesIn entries).find? (fun u => decide (u.name = nm)) = some t := hfind
    have hmem : t ∈ userTablesIn entries := List.mem_of_find?_eq_some hfind2
    have hp := List.find?_some hfind2
    simp only [decide_eq_true_eq] at hp
    exact ⟨(List.mem_filter.mp hmem).2, hp⟩
  · intro nm hpre
    cases hfind : findTableIn entries nm with
    | none => rfl
    | some t =>
      have hfind2 : (userTablesIn entries).find? (fun u => decide (u.name = nm)) = some t := hfind
      have hmem : t ∈ userTablesIn entries := List.mem_of_find?_eq_some hfind2
      have hp := List.find?_some hfind2
      simp only [decide_eq_true_eq] at hp
      have huser : t.is_user_table = true := (List.mem_filter.mp hmem).2
      rw [Table.is_user_table, hp, hpre] at huser
      simp at huser

/-- C8, witness: the amended theorem applied to the concrete two-table
catalog under the reversed iteration order, plus a reserved-prefix lookup
returning nothing. -/
theorem c8_user_tables_unordered_witness :
    (userTablesIn [tB, tA]).Perm
      ((SchemaStore.values ⟨[([97], tA), ([98], tB)], [[97], [98]]⟩).filter
        Table.is_user_table) ∧
    findTableIn [tB, tA] reservedBytes = none := by
  have h := c8_user_tables_unordered [tB, tA] ⟨[([97], tA), ([98], tB)], [[97], [98]]⟩
    (by decide)
  exact ⟨h.1, h.2.2 reservedBytes (by decide)⟩

end SimpleDb
